import Mathlib

/-!
Formal model of the vc-scraper resilient-acquisition and change-tracked
persistence pipeline.

The definitions below are a shallow embedding of the Python sources:
  * `src/lib/utils/retry_logic.py`   (`with_retry`, `CircuitBreaker`)
  * `src/lib/scrapers/base_scraper.py` (`fetch_with_requests`, `scrape_with_fallback`)
  * `src/lib/cleaning/data_cleaner.py` (`calculate_content_hash`, `clean_portfolio_company`,
    `clean_team_member`)
  * `src/lib/database/supabase_client.py` (`upsert_portfolio_company`, `upsert_team_member`,
    the batch upserts and `get_recent_changes`)

Python floats (times, delays) are modelled as rationals; Python dicts as
association lists over a `Value` type; exceptions as explicit error values.
-/

namespace VC

/-- Python values stored in the record dictionaries. -/
inductive Value where
  | vStr (s : String)
  | vNum (q : ℚ)
  | vBool (b : Bool)
  | vNull
deriving DecidableEq

/-- A Python dict, as an association list in insertion order. -/
abbrev Dict := List (String × Value)

/-- `d.get(k)`: first binding of `k`, if any. -/
def dget : Dict → String → Option Value
  | [], _ => none
  | (k1, v) :: rest, k => if k1 = k then some v else dget rest k

/-- `d[k] = v`: replace the first binding of `k`, or append a new one. -/
def dset : Dict → String → Value → Dict
  | [], k, v => [(k, v)]
  | (k1, v1) :: rest, k, v =>
    if k1 = k then (k, v) :: rest else (k1, v1) :: dset rest k v

/-- `d.get(k, dflt)`. -/
def dgetD (d : Dict) (k : String) (dflt : Value) : Value :=
  (dget d k).getD dflt

/-- Python truthiness of a value. -/
def truthy : Value → Bool
  | .vStr s => !(s.isEmpty)
  | .vNum q => decide (q ≠ 0)
  | .vBool b => b
  | .vNull => false

/-- Truthiness of an optional value (a missing key behaves like `None`). -/
def truthyO : Option Value → Bool
  | none => false
  | some v => truthy v

/-- Python `a or b` over possibly missing values. -/
def pyOr (a b : Option Value) : Option Value :=
  if truthyO a then a else b

theorem dget_dset_self (d : Dict) (k : String) (v : Value) :
    dget (dset d k v) k = some v := by
  induction d with
  | nil => simp [dset, dget]
  | cons p rest ih =>
    by_cases h : p.1 = k
    · simp [dset, dget, h]
    · simp [dset, dget, h, ih]

theorem dget_dset_ne (d : Dict) (k k1 : String) (v : Value) (h : k1 ≠ k) :
    dget (dset d k1 v) k = dget d k := by
  induction d with
  | nil => simp [dset, dget, h]
  | cons p rest ih =>
    by_cases h1 : p.1 = k1
    · simp [dset, dget, h1, h]
    · simp only [dset, if_neg h1]
      by_cases h2 : p.1 = k
      · simp [dget, h2]
      · simp [dget, h2, ih]

theorem dset_ne_nil (d : Dict) (k : String) (v : Value) : dset d k v ≠ [] := by
  cases d with
  | nil => simp [dset]
  | cons p rest =>
    by_cases h : p.1 = k <;> simp [dset, h]

/-- The keys of a dict, in order. -/
def keys (d : Dict) : List String := d.map Prod.fst

theorem dset_cons_self (k : String) (v1 v : Value) (rest : Dict) :
    dset ((k, v1) :: rest) k v = (k, v) :: rest := by
  simp [dset]

theorem dset_cons_ne (k1 k : String) (v1 v : Value) (rest : Dict) (h : k1 ≠ k) :
    dset ((k1, v1) :: rest) k v = (k1, v1) :: dset rest k v := by
  simp [dset, h]

theorem mem_keys_of_dget (d : Dict) (k : String) (v : Value)
    (h : dget d k = some v) : k ∈ keys d := by
  induction d with
  | nil => simp [dget] at h
  | cons p rest ih =>
    obtain ⟨k1, v1⟩ := p
    by_cases hk : k1 = k
    · simp [keys, hk]
    · simp only [dget, if_neg hk] at h
      simp [keys] at ih ⊢
      exact Or.inr (ih h)

theorem mem_keys_dset (d : Dict) (k k1 : String) (v : Value) :
    k ∈ keys (dset d k1 v) ↔ k ∈ keys d ∨ k = k1 := by
  induction d with
  | nil => simp [dset, keys, eq_comm]
  | cons p rest ih =>
    obtain ⟨k2, v2⟩ := p
    by_cases h : k2 = k1
    · subst h
      rw [dset_cons_self]
      simp only [keys, List.map_cons, List.mem_cons]
      tauto
    · rw [dset_cons_ne _ _ _ _ _ h]
      simp only [keys, List.map_cons, List.mem_cons]
      simp only [keys] at ih
      rw [ih]
      tauto

theorem nodup_keys_dset (d : Dict) (k : String) (v : Value)
    (h : (keys d).Nodup) : (keys (dset d k v)).Nodup := by
  induction d with
  | nil => simp [dset, keys]
  | cons p rest ih =>
    obtain ⟨k1, v1⟩ := p
    by_cases hk : k1 = k
    · subst hk
      rw [dset_cons_self]
      simpa [keys] using h
    · simp only [keys, List.map_cons, List.nodup_cons] at h
      have h2 := ih h.2
      rw [dset_cons_ne _ _ _ _ _ hk]
      simp only [keys, List.map_cons, List.nodup_cons]
      refine ⟨?_, h2⟩
      intro hm
      rcases (mem_keys_dset rest k1 k v).mp hm with hm1 | hm1
      · exact h.1 hm1
      · exact hk hm1

/-- `row.update(data)` performed key by key (how a SQL `update` writes the
supplied columns over an existing row). -/
def rowUpdate (row : Dict) (data : Dict) : Dict :=
  data.foldl (fun r p => dset r p.1 p.2) row

theorem rowUpdate_nil (row : Dict) : rowUpdate row [] = row := rfl

theorem rowUpdate_cons (row : Dict) (p : String × Value) (rest : Dict) :
    rowUpdate row (p :: rest) = rowUpdate (dset row p.1 p.2) rest := rfl

theorem rowUpdate_ne_nil_of_acc (data : Dict) (row : Dict) (h : row ≠ []) :
    rowUpdate row data ≠ [] := by
  induction data generalizing row with
  | nil => simpa [rowUpdate]
  | cons p rest ih =>
    rw [rowUpdate_cons]
    exact ih (dset row p.1 p.2) (dset_ne_nil _ _ _)

theorem rowUpdate_ne_nil (data : Dict) (row : Dict) (h : data ≠ []) :
    rowUpdate row data ≠ [] := by
  cases data with
  | nil => exact absurd rfl h
  | cons p rest =>
    rw [rowUpdate_cons]
    exact rowUpdate_ne_nil_of_acc rest (dset row p.1 p.2) (dset_ne_nil _ _ _)

theorem dget_rowUpdate (data : Dict) (row : Dict) (k : String)
    (hnd : (keys data).Nodup) :
    (∀ v, dget data k = some v → dget (rowUpdate row data) k = some v) ∧
    (dget data k = none → dget (rowUpdate row data) k = dget row k) := by
  induction data generalizing row with
  | nil => simp [rowUpdate, dget]
  | cons p rest ih =>
    obtain ⟨k1, v1⟩ := p
    simp only [keys, List.map_cons, List.nodup_cons] at hnd
    have ihr := ih (dset row k1 v1) (by simpa [keys] using hnd.2)
    by_cases hk : k1 = k
    · subst hk
      have hnone : dget rest k1 = none := by
        rcases h : dget rest k1 with _ | v
        · rfl
        · exact absurd (by simpa [keys] using mem_keys_of_dget rest k1 v h) hnd.1
      constructor
      · intro v hv
        simp only [dget, if_pos rfl] at hv
        cases hv
        rw [rowUpdate_cons]
        rw [ihr.2 hnone, dget_dset_self]
      · intro hv
        simp [dget] at hv
    · constructor
      · intro v hv
        simp only [dget, if_neg hk] at hv
        rw [rowUpdate_cons]
        exact ihr.1 v hv
      · intro hv
        simp only [dget, if_neg hk] at hv
        rw [rowUpdate_cons]
        rw [ihr.2 hv, dget_dset_ne _ _ _ _ hk]

/-! ## CircuitBreaker (src/lib/utils/retry_logic.py, lines 140-220)

Times (`time.time()`) are rationals.  The wrapped operation's outcome is
supplied abstractly; `expected` says whether the raised exception matches
`self.expected_exception`. -/

inductive BreakerState where
  | CLOSED
  | OPEN
  | HALF_OPEN
deriving DecidableEq

structure CircuitBreaker where
  failure_threshold : Nat
  timeout : ℚ
  failure_count : Nat
  last_failure_time : Option ℚ
  state : BreakerState
deriving DecidableEq

/-- `CircuitBreaker.__init__` with fresh counters. -/
def freshBreaker (failure_threshold : Nat) (timeout : ℚ) : CircuitBreaker :=
  { failure_threshold := failure_threshold, timeout := timeout,
    failure_count := 0, last_failure_time := none, state := .CLOSED }

/-- `CircuitBreaker._should_try_reset`. -/
def should_try_reset (cb : CircuitBreaker) (now : ℚ) : Bool :=
  match cb.last_failure_time with
  | none => true
  | some t => decide (cb.timeout ≤ now - t)

/-- `CircuitBreaker._on_success`. -/
def on_success (cb : CircuitBreaker) : CircuitBreaker :=
  { cb with failure_count := 0, state := .CLOSED, last_failure_time := none }

/-- `CircuitBreaker._on_failure`; `now` is `time.time()` at the failure. -/
def on_failure (cb : CircuitBreaker) (now : ℚ) : CircuitBreaker :=
  let cb1 := { cb with failure_count := cb.failure_count + 1,
                       last_failure_time := some now }
  if cb1.failure_threshold ≤ cb1.failure_count then { cb1 with state := .OPEN } else cb1

/-- The guard at the top of the breaker's wrapper: `none` means the call is
rejected with the circuit-open exception (the operation is not invoked);
`some cb1` is the breaker state in effect when the operation is invoked. -/
def breakerGate (cb : CircuitBreaker) (now : ℚ) : Option CircuitBreaker :=
  if cb.state = .OPEN then
    if should_try_reset cb now then some { cb with state := .HALF_OPEN, failure_count := 0 }
    else none
  else some cb

/-- Outcome of one invocation of the wrapped operation: success, or an
exception which does (`expected := true`) or does not match the breaker's
`expected_exception` filter. -/
inductive OpOutcome (α : Type) where
  | success (v : α)
  | failure (expected : Bool)

inductive CBError where
  | circuitOpen
  | opFailure (expected : Bool)
deriving DecidableEq

structure CallTrace (α : Type) where
  breaker : CircuitBreaker
  result : Except CBError α
  invocations : Nat

/-- One pass through the breaker's `async_wrapper` at time `now`, when the
wrapped operation (if invoked) would produce `op`. -/
def breakerCall {α : Type} (cb : CircuitBreaker) (now : ℚ) (op : OpOutcome α) :
    CallTrace α :=
  match breakerGate cb now with
  | none => { breaker := cb, result := .error .circuitOpen, invocations := 0 }
  | some cb1 =>
    match op with
    | .success v => { breaker := on_success cb1, result := .ok v, invocations := 1 }
    | .failure true =>
        { breaker := on_failure cb1 now, result := .error (.opFailure true), invocations := 1 }
    | .failure false =>
        { breaker := cb1, result := .error (.opFailure false), invocations := 1 }

/-- A run of consecutive qualifying (filter-matching) failed calls at the
given times. -/
def failMany (cb : CircuitBreaker) (ts : List ℚ) : CircuitBreaker :=
  ts.foldl (fun c t => (breakerCall (α := Unit) c t (.failure true)).breaker) cb

theorem failMany_nil (cb : CircuitBreaker) : failMany cb [] = cb := rfl

theorem failMany_cons (cb : CircuitBreaker) (t : ℚ) (ts : List ℚ) :
    failMany cb (t :: ts) =
      failMany (breakerCall (α := Unit) cb t (.failure true)).breaker ts := rfl

theorem breakerCall_closed_failure (cb : CircuitBreaker) (t : ℚ)
    (h : cb.state ≠ .OPEN) :
    (breakerCall (α := Unit) cb t (.failure true)).breaker = on_failure cb t := by
  simp [breakerCall, breakerGate, h]

/-- Below the threshold, consecutive qualifying failures leave a CLOSED
breaker CLOSED and just count up. -/
theorem failMany_stays_closed (ts : List ℚ) (cb : CircuitBreaker)
    (hs : cb.state = .CLOSED)
    (hlt : cb.failure_count + ts.length < cb.failure_threshold) :
    (failMany cb ts).state = .CLOSED ∧
    (failMany cb ts).failure_count = cb.failure_count + ts.length ∧
    (failMany cb ts).failure_threshold = cb.failure_threshold := by
  induction ts generalizing cb with
  | nil => simp [failMany_nil, hs]
  | cons t ts ih =>
    rw [failMany_cons, breakerCall_closed_failure cb t (by rw [hs]; simp)]
    have hcnt : cb.failure_count + 1 < cb.failure_threshold := by
      have := hlt
      simp only [List.length_cons] at this
      omega
    have hof : on_failure cb t =
        { cb with failure_count := cb.failure_count + 1, last_failure_time := some t } := by
      simp only [on_failure]
      rw [if_neg (by simp; omega)]
    rw [hof]
    have := ih { cb with failure_count := cb.failure_count + 1, last_failure_time := some t }
      (by simp [hs]) (by simp only [List.length_cons] at hlt; simp; omega)
    simpa [Nat.add_assoc, Nat.add_comm 1 ts.length] using this

/-- C6 / "Breaker threshold" in section 8 of the spec: starting CLOSED with
`failure_count = 0` and threshold `k ≥ 1`, exactly `k` consecutive qualifying
failures open the circuit, while `k - 1` leave it CLOSED. -/
theorem breaker_threshold_opens (k : Nat) (timeout : ℚ) (ts ts1 : List ℚ)
    (hk : 1 ≤ k) (hts : ts.length = k) (hts1 : ts1.length = k - 1) :
    (failMany (freshBreaker k timeout) ts).state = .OPEN ∧
    (failMany (freshBreaker k timeout) ts1).state = .CLOSED := by
  constructor
  · rcases List.eq_nil_or_concat ts with rfl | ⟨front, t, rfl⟩
    · simp at hts; omega
    · have hfront : front.length = k - 1 := by
        simp at hts; omega
      have hclosed := failMany_stays_closed front (freshBreaker k timeout)
        (by simp [freshBreaker]) (by simp [freshBreaker, hfront]; omega)
      have hfold : failMany (freshBreaker k timeout) (front.concat t) =
          (breakerCall (α := Unit) (failMany (freshBreaker k timeout) front) t
            (.failure true)).breaker := by
        simp [failMany, List.concat_eq_append, List.foldl_append]
      rw [hfold, breakerCall_closed_failure _ _ (by rw [hclosed.1]; simp)]
      have hth : (failMany (freshBreaker k timeout) front).failure_threshold = k := by
        rw [hclosed.2.2]
        rfl
      have hc : (failMany (freshBreaker k timeout) front).failure_count = k - 1 := by
        rw [hclosed.2.1, hfront]
        simp [freshBreaker]
      simp only [on_failure, hth, hc]
      rw [if_pos (by omega)]
  · have hclosed := failMany_stays_closed ts1 (freshBreaker k timeout)
      (by simp [freshBreaker]) (by simp [freshBreaker, hts1]; omega)
    exact hclosed.1

theorem breaker_threshold_opens_witness :
    (failMany (freshBreaker 3 300) [0, 1, 2]).state = .OPEN ∧
    (failMany (freshBreaker 3 300) [0, 1]).state = .CLOSED :=
  breaker_threshold_opens 3 300 [0, 1, 2] [0, 1] (by decide) (by decide) (by decide)

/-- C7 / "Breaker cooldown" in section 8 of the spec: while OPEN, a call
before the cooldown has elapsed since the last failure raises the
circuit-open error without invoking the operation and leaves the breaker
unchanged; the first call at or after the cooldown switches the breaker to
HALF_OPEN with `failure_count = 0` before invoking the operation exactly
once. -/
theorem breaker_cooldown_probe {α : Type} (cb : CircuitBreaker) (t now : ℚ)
    (op : OpOutcome α)
    (hs : cb.state = .OPEN) (hl : cb.last_failure_time = some t) :
    (now - t < cb.timeout →
      breakerCall cb now op =
        { breaker := cb, result := .error .circuitOpen, invocations := 0 }) ∧
    (cb.timeout ≤ now - t →
      breakerGate cb now = some { cb with state := .HALF_OPEN, failure_count := 0 } ∧
      (breakerCall cb now op).invocations = 1) := by
  constructor
  · intro hcool
    have hreset : should_try_reset cb now = false := by
      simp [should_try_reset, hl]
      linarith
    simp [breakerCall, breakerGate, hs, hreset]
  · intro hcool
    have hreset : should_try_reset cb now = true := by
      simp [should_try_reset, hl]
      linarith
    refine ⟨by simp [breakerGate, hs, hreset], ?_⟩
    simp only [breakerCall, breakerGate, hs, hreset, if_pos rfl, if_true]
    cases op with
    | success v => rfl
    | failure e => cases e <;> rfl

theorem breaker_cooldown_probe_witness :
    ((100 : ℚ) - 0 < 300 ∧
      breakerCall ⟨5, 300, 5, some 0, .OPEN⟩ 100 (.success (42 : Nat)) =
        { breaker := ⟨5, 300, 5, some 0, .OPEN⟩, result := .error .circuitOpen,
          invocations := 0 }) ∧
    ((300 : ℚ) ≤ 400 - 0 ∧
      breakerGate ⟨5, 300, 5, some 0, .OPEN⟩ 400 =
        some ⟨5, 300, 0, some 0, .HALF_OPEN⟩ ∧
      (breakerCall ⟨5, 300, 5, some 0, .OPEN⟩ 400 (.success (42 : Nat))).invocations = 1) := by
  refine ⟨⟨by norm_num, ?_⟩, ⟨by norm_num, ?_, ?_⟩⟩
  · exact (breaker_cooldown_probe ⟨5, 300, 5, some 0, .OPEN⟩ 0 100 (.success 42)
      rfl rfl).1 (by norm_num)
  · exact ((breaker_cooldown_probe ⟨5, 300, 5, some 0, .OPEN⟩ 0 400 (.success 42)
      rfl rfl).2 (by norm_num)).1
  · exact ((breaker_cooldown_probe ⟨5, 300, 5, some 0, .OPEN⟩ 0 400 (.success 42)
      rfl rfl).2 (by norm_num)).2

/-- C4 counterexample: a breaker in HALF_OPEN with the default-style threshold
5 stays HALF_OPEN after the next qualifying failure — it does not transition
to OPEN, because entering HALF_OPEN reset `failure_count` to 0 and
`_on_failure` only opens the circuit at `failure_count >= failure_threshold`. -/
theorem half_open_failure_counterexample :
    (breakerCall (α := Unit) ⟨5, 300, 0, some 0, .HALF_OPEN⟩ 10 (.failure true)).breaker.state
      = .HALF_OPEN ∧
    BreakerState.HALF_OPEN ≠ BreakerState.OPEN := by
  decide

/-- C4 amended: in HALF_OPEN, a qualifying failure records the new failure
time and increments `failure_count` (which entering HALF_OPEN had reset to 0);
the breaker moves to OPEN iff the incremented count reaches
`failure_threshold`, so the next failure reopens the circuit only when
`failure_threshold ≤ 1`. -/
theorem half_open_failure_threshold_transition (cb : CircuitBreaker) (now : ℚ)
    (hs : cb.state = .HALF_OPEN) :
    (breakerCall (α := Unit) cb now (.failure true)).breaker.last_failure_time = some now ∧
    (breakerCall (α := Unit) cb now (.failure true)).breaker.failure_count =
      cb.failure_count + 1 ∧
    (breakerCall (α := Unit) cb now (.failure true)).breaker.state =
      (if cb.failure_threshold ≤ cb.failure_count + 1 then .OPEN else .HALF_OPEN) := by
  rw [breakerCall_closed_failure cb now (by rw [hs]; simp)]
  simp only [on_failure]
  by_cases h : cb.failure_threshold ≤ cb.failure_count + 1
  · simp [h]
  · simp [h, hs]

theorem half_open_failure_threshold_transition_witness :
    (breakerCall (α := Unit) ⟨5, 300, 0, some 0, .HALF_OPEN⟩ 10
        (.failure true)).breaker.last_failure_time = some 10 ∧
    (breakerCall (α := Unit) ⟨5, 300, 0, some 0, .HALF_OPEN⟩ 10
        (.failure true)).breaker.failure_count = 1 ∧
    (breakerCall (α := Unit) ⟨5, 300, 0, some 0, .HALF_OPEN⟩ 10
        (.failure true)).breaker.state =
      (if 5 ≤ 1 then BreakerState.OPEN else BreakerState.HALF_OPEN) :=
  half_open_failure_threshold_transition ⟨5, 300, 0, some 0, .HALF_OPEN⟩ 10 rfl

/-! ## with_retry (src/lib/utils/retry_logic.py, lines 18-138)

The decorated function is modelled as `op : Nat → σ → σ × List ℚ × Outcome`,
mapping attempt number and ambient state (e.g. a shared circuit breaker) to
the new state, the sleeps the operation performed internally, and its outcome.
`jit` supplies the sampled value of `0.5 + random.random()` per attempt. -/

inductive Outcome (ε α : Type) where
  | ok (v : α)
  | exn (e : ε)

/-- The keyword arguments of `with_retry`.  `isRetryable e` is
`isinstance(e, exceptions)`; `isReraise e` is
`reraise_exceptions and isinstance(e, reraise_exceptions)`. -/
structure RetryPolicy (ε : Type) where
  max_attempts : Nat
  backoff_factor : ℚ
  jitter : Bool
  initial_delay : ℚ
  max_delay : ℚ
  isRetryable : ε → Bool
  isReraise : ε → Bool

inductive RetryErr (ε : Type) where
  | raised (e : ε)
  | retryExhausted (last : Option ε)
deriving DecidableEq

structure RetryTrace (σ ε α : Type) where
  result : Except (RetryErr ε) α
  invocations : Nat
  retrySleeps : List ℚ
  opSleeps : List ℚ
  finalState : σ

/-- The retry loop of `with_retry.async_wrapper`.  `fuel` is the number of
loop iterations left (`max_attempts - attempt`); `delay` is the current base
delay; `last` the last exception seen. -/
def with_retry_go {σ ε α : Type} (pol : RetryPolicy ε)
    (op : Nat → σ → σ × List ℚ × Outcome ε α) (jit : Nat → ℚ) :
    Nat → Nat → ℚ → Option ε → σ → RetryTrace σ ε α
  | 0, _, _, last, s =>
      { result := .error (.retryExhausted last), invocations := 0,
        retrySleeps := [], opSleeps := [], finalState := s }
  | fuel + 1, attempt, delay, _, s =>
    match op attempt s with
    | (s1, ops, .ok v) =>
        { result := .ok v, invocations := 1, retrySleeps := [],
          opSleeps := ops, finalState := s1 }
    | (s1, ops, .exn e) =>
      if pol.isReraise e then
        { result := .error (.raised e), invocations := 1, retrySleeps := [],
          opSleeps := ops, finalState := s1 }
      else if !pol.isRetryable e then
        { result := .error (.raised e), invocations := 1, retrySleeps := [],
          opSleeps := ops, finalState := s1 }
      else if fuel = 0 then
        { result := .error (.retryExhausted (some e)), invocations := 1,
          retrySleeps := [], opSleeps := ops, finalState := s1 }
      else
        let actual := if pol.jitter then delay * jit attempt else delay
        let actual1 := min actual pol.max_delay
        let rest := with_retry_go pol op jit fuel (attempt + 1)
          (delay * pol.backoff_factor) (some e) s1
        { result := rest.result, invocations := rest.invocations + 1,
          retrySleeps := actual1 :: rest.retrySleeps,
          opSleeps := ops ++ rest.opSleeps, finalState := rest.finalState }

/-- A full run of the wrapped function. -/
def with_retry_run {σ ε α : Type} (pol : RetryPolicy ε)
    (op : Nat → σ → σ × List ℚ × Outcome ε α) (jit : Nat → ℚ) (s0 : σ) :
    RetryTrace σ ε α :=
  with_retry_go pol op jit pol.max_attempts 0 pol.initial_delay none s0

theorem with_retry_go_bounds {σ ε α : Type} (pol : RetryPolicy ε)
    (op : Nat → σ → σ × List ℚ × Outcome ε α) (jit : Nat → ℚ) :
    ∀ (fuel attempt : Nat) (delay : ℚ) (last : Option ε) (s : σ),
      (with_retry_go pol op jit fuel attempt delay last s).invocations ≤ fuel ∧
      (with_retry_go pol op jit fuel attempt delay last s).retrySleeps.length ≤ fuel - 1 ∧
      ∀ d ∈ (with_retry_go pol op jit fuel attempt delay last s).retrySleeps,
        d ≤ pol.max_delay := by
  intro fuel
  induction fuel with
  | zero =>
    intro attempt delay last s
    simp [with_retry_go]
  | succ fuel ih =>
    intro attempt delay last s
    rcases hop : op attempt s with ⟨s1, ops, out⟩
    cases out with
    | ok v => simp [with_retry_go, hop]
    | exn e =>
      by_cases hr : pol.isReraise e
      · simp [with_retry_go, hop, hr]
      · by_cases hn : pol.isRetryable e
        · by_cases hf : fuel = 0
          · simp [with_retry_go, hop, hr, hn, hf]
          · have ihr := ih (attempt + 1) (delay * pol.backoff_factor) (some e) s1
            simp only [with_retry_go, hop, if_neg hr, hn, Bool.not_true,
              Bool.false_eq_true, if_false, if_neg hf]
            refine ⟨by omega, by simp; omega, ?_⟩
            intro d hd
            simp only [List.mem_cons] at hd
            rcases hd with rfl | hd
            · exact min_le_right _ _
            · exact ihr.2.2 d hd
        · simp [with_retry_go, hop, hr, hn]

/-- C8 / "Retry bound" in section 8 of the spec: the retry executor invokes
the wrapped operation at most `max_attempts` times, sleeps between attempts
at most `max_attempts - 1` times (never after the final failed attempt), and
every backoff delay it actually sleeps is at most `max_delay`, whatever
jitter factors are sampled. -/
theorem retry_executor_bounds {σ ε α : Type} (pol : RetryPolicy ε)
    (op : Nat → σ → σ × List ℚ × Outcome ε α) (jit : Nat → ℚ) (s0 : σ) :
    (with_retry_run pol op jit s0).invocations ≤ pol.max_attempts ∧
    (with_retry_run pol op jit s0).retrySleeps.length ≤ pol.max_attempts - 1 ∧
    ∀ d ∈ (with_retry_run pol op jit s0).retrySleeps, d ≤ pol.max_delay :=
  with_retry_go_bounds pol op jit pol.max_attempts 0 pol.initial_delay none s0

/-! ## fetch_with_requests (src/lib/scrapers/base_scraper.py, lines 116-150)

`fetch_with_requests` is `with_retry(max_attempts=3,
exceptions=(aiohttp.ClientError, asyncio.TimeoutError))` applied to an inner
`_fetch` that is itself wrapped by the shared HTTP circuit breaker
(`failure_threshold=5, timeout=300`, expected exceptions
`(aiohttp.ClientError, asyncio.TimeoutError, RateLimitError)`).  On an HTTP
429 the inner `_fetch` sleeps `Retry-After` (default 60) and then raises
`RateLimitError`. -/

inductive FetchErr where
  | rateLimit
  | clientError
  | timeoutError
  | circuitOpen
deriving DecidableEq

/-- What the HTTP server/transport does on one attempt. -/
inductive HttpAttempt where
  | success
  | http429 (retryAfter : Option ℚ)
  | clientFailure
  | timeoutFailure

/-- The body of `_fetch` after the circuit-breaker gate: the sleeps it
performs and its outcome.  (The base rate-limit delay of
`_rate_limit_delay` is omitted; only the 429 `Retry-After` sleep is
tracked.) -/
def runHttpAttempt : HttpAttempt → List ℚ × Outcome FetchErr Unit
  | .success => ([], .ok ())
  | .http429 ra => ([ra.getD 60], .exn .rateLimit)
  | .clientFailure => ([], .exn .clientError)
  | .timeoutFailure => ([], .exn .timeoutError)

/-- `isinstance(e, (aiohttp.ClientError, asyncio.TimeoutError, RateLimitError))`,
the HTTP circuit breaker's exception filter. -/
def httpBreakerExpected : FetchErr → Bool
  | .rateLimit => true
  | .clientError => true
  | .timeoutError => true
  | .circuitOpen => false

/-- `isinstance(e, (aiohttp.ClientError, asyncio.TimeoutError))`, the retry
decorator's `exceptions` filter on `fetch_with_requests`. -/
def httpRetryable : FetchErr → Bool
  | .clientError => true
  | .timeoutError => true
  | _ => false

/-- The `with_retry` keyword arguments used on `fetch_with_requests`. -/
def httpRetryPolicy : RetryPolicy FetchErr :=
  { max_attempts := 3, backoff_factor := 2, jitter := true, initial_delay := 1,
    max_delay := 60, isRetryable := httpRetryable, isReraise := fun _ => false }

/-- One retry attempt of `fetch_with_requests`: the circuit-breaker-guarded
`_fetch`, threading the shared breaker state. -/
def guardedHttpFetch (atts : Nat → HttpAttempt) (now : Nat → ℚ) (n : Nat)
    (cb : CircuitBreaker) : CircuitBreaker × List ℚ × Outcome FetchErr Unit :=
  match breakerGate cb (now n) with
  | none => (cb, [], .exn .circuitOpen)
  | some cb1 =>
    match runHttpAttempt (atts n) with
    | (sleeps, .ok v) => (on_success cb1, sleeps, .ok v)
    | (sleeps, .exn e) =>
      if httpBreakerExpected e then (on_failure cb1 (now n), sleeps, .exn e)
      else (cb1, sleeps, .exn e)

/-- `fetch_with_requests` over a scripted transport. -/
def fetch_with_requests (cb : CircuitBreaker) (atts : Nat → HttpAttempt)
    (now : Nat → ℚ) (jit : Nat → ℚ) : RetryTrace CircuitBreaker FetchErr Unit :=
  with_retry_run httpRetryPolicy (guardedHttpFetch atts now) jit cb

/-- Rate-limit scenario of C3: a 429 with `Retry-After: 5` on attempt 1, then
a server that would succeed on attempt 2. -/
def attempts429then200 : Nat → HttpAttempt
  | 0 => .http429 (some 5)
  | _ => .success

/-- C3 evaluated on the failing input: the transport sleeps the 5-second
`Retry-After`, but the raised `RateLimitError` is not in the retry
decorator's `exceptions=(aiohttp.ClientError, asyncio.TimeoutError)`, so
`with_retry` re-raises it immediately: the fetch fails after exactly one
invocation (never reaching the successful attempt 2), with the failure
counted by the circuit breaker.  The claimed behaviour — success with
`attemptCount = 2` — does not occur. -/
theorem fetch_429_not_retried_eval :
    (fetch_with_requests (freshBreaker 5 300) attempts429then200
        (fun _ => 0) (fun _ => 1)).result = .error (.raised .rateLimit) ∧
    (fetch_with_requests (freshBreaker 5 300) attempts429then200
        (fun _ => 0) (fun _ => 1)).invocations = 1 ∧
    (fetch_with_requests (freshBreaker 5 300) attempts429then200
        (fun _ => 0) (fun _ => 1)).opSleeps = [5] ∧
    (fetch_with_requests (freshBreaker 5 300) attempts429then200
        (fun _ => 0) (fun _ => 1)).finalState.failure_count = 1 := by
  refine ⟨rfl, rfl, by decide, rfl⟩

/-! ## scrape_with_fallback (src/lib/scrapers/base_scraper.py, lines 292-342)

The two transports are supplied as the overall outcome of their own
retry/circuit-guarded fetch (`fetch_with_playwright` / `fetch_with_requests`),
and `_parse_page` as a function on the fetched soup.  `σ` is the soup type,
`ε` the exception type, `α` the parsed-records type. -/

/-- Bool substring test (`d in netloc`). -/
def strContainsSub (hay sub : String) : Bool :=
  go sub.data hay.data
where
  go (needle : List Char) : List Char → Bool
    | [] => needle.isEmpty
    | c :: rest => needle.isPrefixOf (c :: rest) || go needle rest

def js_heavy_domains : List String := ["google.", "facebook.", "linkedin.", "github."]

/-- The auto-detect heuristic: `any(domain in parsed.netloc for domain in
js_heavy_domains)`. -/
def useplaywrightAuto (netloc : String) : Bool :=
  js_heavy_domains.any (fun d => strContainsSub netloc d)

/-- The single typed failure raised when both methods fail:
`ScrapingError(f"Failed to scrape {url}: {fallback_error}")`.  It carries the
URL and the fallback error; nothing else. -/
inductive ScrapingFailure (ε : Type) where
  | failed (url : String) (fallbackError : ε)

structure FallbackTrace (ε α : Type) where
  result : Except (ScrapingFailure ε) α
  requestsCalls : Nat
  playwrightCalls : Nat

/-- `scrape_with_fallback(url, use_playwright)`: primary fetch + parse; on any
exception, the other transport once (fetch + parse); if that also fails,
raise the single `ScrapingError`.  The call counters record how many times
each transport's guarded fetch was awaited. -/
def scrape_with_fallback {σ ε α : Type} (url : String) (use_playwright : Option Bool)
    (netloc : String) (fetchPlaywright fetchRequests : Except ε σ)
    (parse : σ → Except ε α) : FallbackTrace ε α :=
  let usePw := use_playwright.getD (useplaywrightAuto netloc)
  match (if usePw then fetchPlaywright else fetchRequests).bind parse with
  | .ok recs =>
      { result := .ok recs,
        requestsCalls := if usePw then 0 else 1,
        playwrightCalls := if usePw then 1 else 0 }
  | .error _ =>
    match (if usePw then fetchRequests else fetchPlaywright).bind parse with
    | .ok recs => { result := .ok recs, requestsCalls := 1, playwrightCalls := 1 }
    | .error ef =>
        { result := .error (.failed url ef), requestsCalls := 1, playwrightCalls := 1 }

/-- C5 counterexample: with the primary (playwright) transport failing and the
requests fallback failing too, two runs that differ only in the primary
error produce identical results — the raised failure cannot be carrying the
primary error, contradicting the claim that it carries both errors. -/
theorem fallback_failure_drops_primary_error :
    scrape_with_fallback (σ := String) (ε := String) (α := Unit)
        "https://example.test/p" (some true)
        "example.test" (.error "playwright error A") (.error "requests error")
        (fun _ => .ok ()) =
      scrape_with_fallback (σ := String) (ε := String) (α := Unit)
        "https://example.test/p" (some true)
        "example.test" (.error "playwright error B") (.error "requests error")
        (fun _ => .ok ()) ∧
    ("playwright error A" : String) ≠ "playwright error B" := by
  exact ⟨rfl, by decide⟩

/-- C5 amended: when the selected primary transport's guarded fetch-and-parse
fails, the coordinator runs the other transport exactly once through its own
guard, and when that also fails it raises one typed `ScrapingError` carrying
the URL and the fallback error only (the primary error is logged, not
carried). -/
theorem fallback_failure_raises_single_error {σ ε α : Type} (url netloc : String)
    (b : Bool) (fetchPlaywright fetchRequests : Except ε σ) (parse : σ → Except ε α)
    (ep ef : ε)
    (hp : (if b then fetchPlaywright else fetchRequests).bind parse = .error ep)
    (hf : (if b then fetchRequests else fetchPlaywright).bind parse = .error ef) :
    scrape_with_fallback url (some b) netloc fetchPlaywright fetchRequests parse =
      { result := .error (.failed url ef), requestsCalls := 1, playwrightCalls := 1 } := by
  simp only [scrape_with_fallback, Option.getD_some, hp, hf]

theorem fallback_failure_raises_single_error_witness :
    scrape_with_fallback (σ := String) (ε := String) (α := Unit)
        "https://example.test/q" (some false) "example.test"
        (.error "playwright down") (.error "requests down") (fun _ => .ok ()) =
      { result := .error (.failed "https://example.test/q" "playwright down"),
        requestsCalls := 1, playwrightCalls := 1 } :=
  fallback_failure_raises_single_error "https://example.test/q" "example.test" false
    (.error "playwright down") (.error "requests down") (fun _ => .ok ())
    "requests down" "playwright down" rfl rfl

/-! ## Upsert protocol (src/lib/database/supabase_client.py, lines 149-451)

`upsert_portfolio_company` and `upsert_team_member` are line-for-line
identical up to the table and change-log names, so both are embedded as
`upsert_record` over a single `Table` (rows, change log, id counter).
Rows and incoming records are dicts; `now` is the isoformat timestamp
`datetime.now(timezone.utc).isoformat()` of the call. -/

/-- One row of a `*_changes` table. -/
structure ChangeRow where
  entity_id : Option Value
  changed : List (String × Value × Value)
  previous_hash : Option Value
  new_hash : Option Value
  changed_at : String
deriving DecidableEq

structure Table where
  rows : List Dict
  changes : List ChangeRow
  next_id : Nat
deriving DecidableEq

/-- The field-level diff of `record_company_change` / `record_member_change`:
every key of the new row whose value differs from the old row's value for
that key (a missing old key reads as `None`). -/
def diffChanges (oldD newD : Dict) : List (String × Value × Value) :=
  newD.filterMap (fun p =>
    if (dget oldD p.1).getD .vNull ≠ p.2 then
      some (p.1, (dget oldD p.1).getD .vNull, p.2)
    else none)

/-- `record_company_change` / `record_member_change`: append one change-log
row when the diff is non-empty. -/
def record_change (t : Table) (entityId : Option Value) (oldD newD : Dict)
    (now : String) : Table :=
  let d := diffChanges oldD newD
  if d.isEmpty then t
  else
    { t with changes := t.changes ++
        [{ entity_id := entityId, changed := d,
           previous_hash := dget oldD "content_hash",
           new_hash := dget newD "content_hash", changed_at := now }] }

/-- `.select('*').eq('site_id', site_id).eq('name', data['name'])`, first hit. -/
def findExisting (rows : List Dict) (siteId : Nat) (namev : Option Value) :
    Option Dict :=
  rows.find? (fun r =>
    decide (dget r "site_id" = some (.vNum (siteId : ℚ))) &&
    decide (dget r "name" = namev))

/-- `upsert_portfolio_company` / `upsert_team_member`: find-or-create, update
all supplied fields plus `updated_at`/`last_seen_at` on the found row, and
record a change entry only when both content hashes are truthy and differ. -/
def upsert_record (t : Table) (siteId : Nat) (data : Dict) (now : String) :
    Table × Option Dict :=
  let data1 := dset data "site_id" (.vNum (siteId : ℚ))
  match findExisting t.rows siteId (dget data1 "name") with
  | some existing =>
    let old_hash := dget existing "content_hash"
    let new_hash := dget data1 "content_hash"
    let data2 := dset (dset data1 "updated_at" (.vStr now)) "last_seen_at" (.vStr now)
    let updated := rowUpdate existing data2
    let newRows := t.rows.map (fun r => if dget r "id" = dget existing "id" then updated else r)
    let t1 := { t with rows := newRows }
    let t2 :=
      if truthyO old_hash && truthyO new_hash && decide (old_hash ≠ new_hash) then
        record_change t1 (dget updated "id") existing updated now
      else t1
    (t2, some updated)
  | none =>
    let data2 := dset (dset (dset data1 "created_at" (.vStr now))
      "first_seen_at" (.vStr now)) "last_seen_at" (.vStr now)
    let row := dset data2 "id" (.vNum (t.next_id : ℚ))
    ({ t with rows := t.rows ++ [row], next_id := t.next_id + 1 }, some row)

/-- `upsert_portfolio_company` acting on the portfolio-company table. -/
def upsert_portfolio_company : Table → Nat → Dict → String → Table × Option Dict :=
  upsert_record

/-- `upsert_team_member` acting on the team-member table. -/
def upsert_team_member : Table → Nat → Dict → String → Table × Option Dict :=
  upsert_record

/-- `elif result:` — the upsert's return value is counted when truthy. -/
def truthyRow : Option Dict → Bool
  | none => false
  | some d => !d.isEmpty

/-- One batch of the `_with_change_tracking` loop: each record's upsert runs
(`asyncio.gather(..., return_exceptions=True)`); a record whose upsert raises
(`failAt` at its global index) is logged and skipped, leaving the store
untouched by that record, without aborting its siblings. -/
def processBatch (siteId : Nat) (now : String) (failAt : Nat → Bool) :
    Table → Nat → List Dict → Table × Nat
  | t, _, [] => (t, 0)
  | t, i, d :: rest =>
    if failAt i then processBatch siteId now failAt t (i + 1) rest
    else
      let r := upsert_record t siteId d now
      let rest1 := processBatch siteId now failAt r.1 (i + 1) rest
      (rest1.1, if truthyRow r.2 then rest1.2 + 1 else rest1.2)

/-- `for i in range(0, len(records), batch_size)`: split into chunks of `n`. -/
def chunkList {α : Type} (n : Nat) : List α → List (List α)
  | [] => []
  | x :: xs => (x :: xs.take (n - 1)) :: chunkList n (xs.drop (n - 1))
termination_by l => l.length
decreasing_by
  simp [List.length_drop]
  omega

def processBatches (siteId : Nat) (now : String) (failAt : Nat → Bool) :
    Table → Nat → List (List Dict) → Table × Nat
  | t, _, [] => (t, 0)
  | t, i, b :: bs =>
    let r1 := processBatch siteId now failAt t i b
    let r2 := processBatches siteId now failAt r1.1 (i + b.length) bs
    (r2.1, r1.2 + r2.2)

/-- `upsert_companies_with_change_tracking` /
`upsert_team_members_with_change_tracking`: batches of 50, returning the
final store and the success count. -/
def upsert_with_change_tracking (t : Table) (siteId : Nat) (records : List Dict)
    (failAt : Nat → Bool) (now : String) : Table × Nat :=
  processBatches siteId now failAt t 0 (chunkList 50 records)

def upsert_companies_with_change_tracking :
    Table → Nat → List Dict → (Nat → Bool) → String → Table × Nat :=
  upsert_with_change_tracking

def upsert_team_members_with_change_tracking :
    Table → Nat → List Dict → (Nat → Bool) → String → Table × Nat :=
  upsert_with_change_tracking

/-- A stored company row and a re-scraped record with the identical
content hash but a changed `sector`, used to evaluate C2. -/
def rowAcme : Dict :=
  [("id", .vNum 1), ("site_id", .vNum 7), ("name", .vStr "Acme"),
   ("content_hash", .vStr "h1"), ("sector", .vStr "OldSector"),
   ("updated_at", .vStr "T0"), ("last_seen_at", .vStr "T0")]

def dataAcme : Dict :=
  [("name", .vStr "Acme"), ("content_hash", .vStr "h1"),
   ("sector", .vStr "NewSector")]

/-- C2 counterexample: upserting a record whose content hash equals the
stored hash rewrites the whole row — `updated_at` becomes the new timestamp
`T1` (it was `T0`) and `sector` is overwritten — so the operation does not
"update only lastSeenAt, leaving every other stored field including
updatedAt unchanged".  (No change-log entry is created, as the claim says.) -/
theorem upsert_equal_hash_counterexample :
    (upsert_portfolio_company ⟨[rowAcme], [], 2⟩ 7 dataAcme "T1").1.rows =
      [[("id", .vNum 1), ("site_id", .vNum 7), ("name", .vStr "Acme"),
        ("content_hash", .vStr "h1"), ("sector", .vStr "NewSector"),
        ("updated_at", .vStr "T1"), ("last_seen_at", .vStr "T1")]] ∧
    (upsert_portfolio_company ⟨[rowAcme], [], 2⟩ 7 dataAcme "T1").1.changes = [] ∧
    dget rowAcme "updated_at" = some (.vStr "T0") ∧
    dget rowAcme "sector" = some (.vStr "OldSector") ∧
    ("T1" : String) ≠ "T0" := by
  refine ⟨by decide, by decide, by decide, by decide, by decide⟩

/-- C2 amended: when the new content hash equals the stored one, the upsert
still overwrites every supplied field of the stored row and sets both
`updated_at` and `last_seen_at` to the call's timestamp — only the
change-log stays untouched.  Stated for both `upsert_portfolio_company` and
`upsert_team_member` (the same code). -/
theorem upsert_equal_hash_updates_all_fields (t : Table) (siteId : Nat)
    (data : Dict) (now : String) (existing : Dict)
    (hnd : (keys data).Nodup)
    (hfind : findExisting t.rows siteId
      (dget (dset data "site_id" (.vNum (siteId : ℚ))) "name") = some existing)
    (hhash : dget existing "content_hash" = dget data "content_hash") :
    (upsert_portfolio_company t siteId data now).1.changes = t.changes ∧
    (upsert_team_member t siteId data now).1.changes = t.changes ∧
    (upsert_portfolio_company t siteId data now).2 =
      some (rowUpdate existing (dset (dset (dset data "site_id" (.vNum (siteId : ℚ)))
        "updated_at" (.vStr now)) "last_seen_at" (.vStr now))) ∧
    dget (rowUpdate existing (dset (dset (dset data "site_id" (.vNum (siteId : ℚ)))
        "updated_at" (.vStr now)) "last_seen_at" (.vStr now))) "updated_at" =
      some (.vStr now) ∧
    dget (rowUpdate existing (dset (dset (dset data "site_id" (.vNum (siteId : ℚ)))
        "updated_at" (.vStr now)) "last_seen_at" (.vStr now))) "last_seen_at" =
      some (.vStr now) ∧
    ∀ k v, dget (dset (dset (dset data "site_id" (.vNum (siteId : ℚ)))
        "updated_at" (.vStr now)) "last_seen_at" (.vStr now)) k = some v →
      dget (rowUpdate existing (dset (dset (dset data "site_id" (.vNum (siteId : ℚ)))
        "updated_at" (.vStr now)) "last_seen_at" (.vStr now))) k = some v := by
  have hnew : dget (dset data "site_id" (.vNum (siteId : ℚ))) "content_hash" =
      dget data "content_hash" :=
    dget_dset_ne data "content_hash" "site_id" _ (by decide)
  have hguard : (truthyO (dget existing "content_hash") &&
      truthyO (dget (dset data "site_id" (.vNum (siteId : ℚ))) "content_hash") &&
      decide (dget existing "content_hash" ≠
        dget (dset data "site_id" (.vNum (siteId : ℚ))) "content_hash")) = false := by
    rw [hnew, hhash]
    simp
  have hnd2 : (keys (dset (dset (dset data "site_id" (.vNum (siteId : ℚ)))
      "updated_at" (.vStr now)) "last_seen_at" (.vStr now))).Nodup :=
    nodup_keys_dset _ _ _ (nodup_keys_dset _ _ _ (nodup_keys_dset _ _ _ hnd))
  have hup : dget (dset (dset (dset data "site_id" (.vNum (siteId : ℚ)))
      "updated_at" (.vStr now)) "last_seen_at" (.vStr now)) "updated_at" =
      some (.vStr now) := by
    rw [dget_dset_ne _ _ _ _ (by decide), dget_dset_self]
  have hls : dget (dset (dset (dset data "site_id" (.vNum (siteId : ℚ)))
      "updated_at" (.vStr now)) "last_seen_at" (.vStr now)) "last_seen_at" =
      some (.vStr now) := dget_dset_self _ _ _
  have hget := fun k => dget_rowUpdate
    (dset (dset (dset data "site_id" (.vNum (siteId : ℚ)))
      "updated_at" (.vStr now)) "last_seen_at" (.vStr now)) existing k hnd2
  have hrec : upsert_record t siteId data now =
      ({ t with rows := t.rows.map (fun r =>
          if dget r "id" = dget existing "id" then
            rowUpdate existing (dset (dset (dset data "site_id" (.vNum (siteId : ℚ)))
              "updated_at" (.vStr now)) "last_seen_at" (.vStr now))
          else r) },
        some (rowUpdate existing (dset (dset (dset data "site_id" (.vNum (siteId : ℚ)))
          "updated_at" (.vStr now)) "last_seen_at" (.vStr now)))) := by
    rw [upsert_record]
    rw [hfind]
    simp only [hguard]
    simp
  refine ⟨?_, ?_, ?_, hup.symm ▸ (hget "updated_at").1 _ hup,
    hls.symm ▸ (hget "last_seen_at").1 _ hls, fun k v hv => (hget k).1 v hv⟩
  · rw [upsert_portfolio_company, hrec]
  · rw [upsert_team_member, hrec]
  · rw [upsert_portfolio_company, hrec]

theorem upsert_equal_hash_updates_all_fields_witness :
    (upsert_portfolio_company ⟨[rowAcme], [], 2⟩ 7 dataAcme "T1").1.changes = [] ∧
    (upsert_team_member ⟨[rowAcme], [], 2⟩ 7 dataAcme "T1").1.changes = [] ∧
    dget (rowUpdate rowAcme (dset (dset (dset dataAcme "site_id" (.vNum (7 : ℚ)))
        "updated_at" (.vStr "T1")) "last_seen_at" (.vStr "T1"))) "updated_at" =
      some (.vStr "T1") := by
  have h := upsert_equal_hash_updates_all_fields ⟨[rowAcme], [], 2⟩ 7 dataAcme "T1"
    rowAcme (by decide) (by decide) (by decide)
  exact ⟨h.1, h.2.1, h.2.2.2.1⟩

theorem upsert_record_truthy (t : Table) (siteId : Nat) (data : Dict)
    (now : String) : truthyRow (upsert_record t siteId data now).2 = true := by
  rw [upsert_record]
  rcases h : findExisting t.rows siteId
      (dget (dset data "site_id" (.vNum (siteId : ℚ))) "name") with _ | existing
  · simp only [h]
    have hne := dset_ne_nil (dset (dset (dset (dset data "site_id" (.vNum (siteId : ℚ)))
      "created_at" (.vStr now)) "first_seen_at" (.vStr now)) "last_seen_at" (.vStr now))
      "id" (.vNum (t.next_id : ℚ))
    simp only [truthyRow]
    cases hrow : dset (dset (dset (dset (dset data "site_id" (.vNum (siteId : ℚ)))
        "created_at" (.vStr now)) "first_seen_at" (.vStr now)) "last_seen_at" (.vStr now))
        "id" (.vNum (t.next_id : ℚ)) with
    | nil => exact absurd hrow hne
    | cons p rest => simp
  · simp only [h]
    have hne := rowUpdate_ne_nil
      (dset (dset (dset data "site_id" (.vNum (siteId : ℚ)))
        "updated_at" (.vStr now)) "last_seen_at" (.vStr now)) existing
      (dset_ne_nil _ _ _)
    simp only [truthyRow]
    cases hrow : rowUpdate existing (dset (dset (dset data "site_id" (.vNum (siteId : ℚ)))
        "updated_at" (.vStr now)) "last_seen_at" (.vStr now)) with
    | nil => exact absurd hrow hne
    | cons p rest => simp

/-- Specification-side count: the number of indices in `[i, i + length)` at
which the per-record upsert does not fail. -/
def succCount (failAt : Nat → Bool) : Nat → List Dict → Nat
  | _, [] => 0
  | i, _ :: rest => (if failAt i then 0 else 1) + succCount failAt (i + 1) rest

theorem processBatch_count (siteId : Nat) (now : String) (failAt : Nat → Bool) :
    ∀ (b : List Dict) (t : Table) (i : Nat),
      (processBatch siteId now failAt t i b).2 = succCount failAt i b := by
  intro b
  induction b with
  | nil => intro t i; rfl
  | cons d rest ih =>
    intro t i
    by_cases hf : failAt i
    · simp [processBatch, succCount, hf, ih]
    · simp only [processBatch, succCount, if_neg hf]
      rw [upsert_record_truthy]
      simp [ih]
      omega

theorem succCount_append (failAt : Nat → Bool) (a b : List Dict) :
    ∀ (i : Nat),
      succCount failAt i (a ++ b) = succCount failAt i a + succCount failAt (i + a.length) b := by
  induction a with
  | nil => intro i; simp [succCount]
  | cons d rest ih =>
    intro i
    rw [List.cons_append]
    simp only [succCount]
    rw [ih (i + 1)]
    simp only [List.length_cons]
    have hidx : i + 1 + rest.length = i + (rest.length + 1) := by omega
    rw [hidx]
    omega

theorem processBatches_count (siteId : Nat) (now : String) (failAt : Nat → Bool) :
    ∀ (bs : List (List Dict)) (t : Table) (i : Nat),
      (processBatches siteId now failAt t i bs).2 = succCount failAt i bs.flatten := by
  intro bs
  induction bs with
  | nil => intro t i; rfl
  | cons b rest ih =>
    intro t i
    simp only [processBatches, List.flatten_cons, succCount_append]
    rw [processBatch_count, ih]

theorem chunkList_join_aux {α : Type} (n : Nat) :
    ∀ (len : Nat) (l : List α), l.length = len → (chunkList n l).flatten = l := by
  intro len
  induction len using Nat.strong_induction_on with
  | _ len ih =>
    intro l hl
    cases l with
    | nil => simp [chunkList]
    | cons x xs =>
      rw [chunkList]
      simp only [List.flatten_cons, List.cons_append]
      rw [ih (xs.drop (n - 1)).length ?_ (xs.drop (n - 1)) rfl]
      · rw [List.take_append_drop]
      · subst hl
        simp only [List.length_drop, List.length_cons]
        omega

theorem chunkList_join {α : Type} (n : Nat) (l : List α) : (chunkList n l).flatten = l :=
  chunkList_join_aux n l.length l rfl

theorem chunkList_length_le_aux {α : Type} (n : Nat) (hn : 1 ≤ n) :
    ∀ (len : Nat) (l : List α), l.length = len → ∀ b ∈ chunkList n l, b.length ≤ n := by
  intro len
  induction len using Nat.strong_induction_on with
  | _ len ih =>
    intro l hl
    cases l with
    | nil => simp [chunkList]
    | cons x xs =>
      rw [chunkList]
      intro b hb
      rcases List.mem_cons.mp hb with rfl | hb
      · simp only [List.length_cons, List.length_take]
        omega
      · exact ih (xs.drop (n - 1)).length
          (by subst hl; simp only [List.length_drop, List.length_cons]; omega)
          (xs.drop (n - 1)) rfl b hb

theorem chunkList_length_le {α : Type} (n : Nat) (hn : 1 ≤ n) (l : List α) :
    ∀ b ∈ chunkList n l, b.length ≤ n :=
  chunkList_length_le_aux n hn l.length l rfl

theorem succCount_range (failAt : Nat → Bool) :
    ∀ (l : List Dict) (i : Nat),
      succCount failAt i l = ((List.range l.length).map (· + i)).countP (fun j => !failAt j) := by
  intro l
  induction l with
  | nil => intro i; simp [succCount]
  | cons d rest ih =>
    intro i
    simp only [succCount, List.length_cons, List.range_succ_eq_map, List.map_cons,
      List.countP_cons, List.map_map]
    rw [ih (i + 1)]
    have hmap : (List.map ((· + i) ∘ (· + 1)) (List.range rest.length)) =
        (List.map (· + (i + 1)) (List.range rest.length)) := by
      apply List.map_congr_left
      intro a _
      simp
      omega
    rw [hmap]
    by_cases hf : failAt i <;> simp [hf] <;> omega

theorem chunkList_short {α : Type} (n : Nat) (x : α) (xs : List α)
    (h : xs.length ≤ n - 1) : chunkList n (x :: xs) = [x :: xs] := by
  rw [chunkList]
  rw [List.take_of_length_le h, List.drop_eq_nil_of_le h]
  rw [chunkList]

/-- The `[A, B, C]` scenario records for the batch partial-failure claim. -/
def recA : Dict := [("name", .vStr "A"), ("content_hash", .vStr "ha")]

def recB : Dict := [("name", .vStr "B"), ("content_hash", .vStr "hb")]

def recC : Dict := [("name", .vStr "C"), ("content_hash", .vStr "hc")]

/-- C9: the batch upserts split the record list into chunks of (at most) 50
covering it in order, return the number of records whose individual upsert
succeeded (a per-record failure is excluded without aborting its siblings),
and in the concrete `[A, B, C]` scenario with `B`'s upsert failing the count
is 2 and `A` and `C` are persisted while `B` is not. -/
theorem upsert_batch_partial_failure :
    (∀ (t : Table) (siteId : Nat) (records : List Dict) (failAt : Nat → Bool)
        (now : String),
      (upsert_companies_with_change_tracking t siteId records failAt now).2 =
        (List.range records.length).countP (fun i => !failAt i) ∧
      (upsert_team_members_with_change_tracking t siteId records failAt now).2 =
        (List.range records.length).countP (fun i => !failAt i)) ∧
    (∀ (records : List Dict),
      (chunkList 50 records).flatten = records ∧
      ∀ b ∈ chunkList 50 records, b.length ≤ 50) ∧
    ((upsert_companies_with_change_tracking ⟨[], [], 1⟩ 7 [recA, recB, recC]
        (fun i => i == 1) "T0").2 = 2 ∧
      (∃ r ∈ (upsert_companies_with_change_tracking ⟨[], [], 1⟩ 7 [recA, recB, recC]
        (fun i => i == 1) "T0").1.rows, dget r "name" = some (.vStr "A")) ∧
      (∃ r ∈ (upsert_companies_with_change_tracking ⟨[], [], 1⟩ 7 [recA, recB, recC]
        (fun i => i == 1) "T0").1.rows, dget r "name" = some (.vStr "C")) ∧
      ¬ ∃ r ∈ (upsert_companies_with_change_tracking ⟨[], [], 1⟩ 7 [recA, recB, recC]
        (fun i => i == 1) "T0").1.rows, dget r "name" = some (.vStr "B")) := by
  have hchunk : chunkList 50 [recA, recB, recC] = [[recA, recB, recC]] :=
    chunkList_short 50 recA [recB, recC] (by decide)
  have hrun : upsert_companies_with_change_tracking ⟨[], [], 1⟩ 7 [recA, recB, recC]
      (fun i => i == 1) "T0" =
      processBatches 7 "T0" (fun i => i == 1) ⟨[], [], 1⟩ 0 [[recA, recB, recC]] := by
    simp only [upsert_companies_with_change_tracking, upsert_with_change_tracking, hchunk]
  refine ⟨?_, ?_, ?_, ?_, ?_, ?_⟩
  · intro t siteId records failAt now
    have hcount : (upsert_with_change_tracking t siteId records failAt now).2 =
        (List.range records.length).countP (fun i => !failAt i) := by
      rw [upsert_with_change_tracking, processBatches_count, chunkList_join,
        succCount_range]
      congr 1
      have h0 : (List.map (· + 0) (List.range records.length)) =
          List.range records.length := by
        simp
      rw [h0]
    exact ⟨hcount, hcount⟩
  · intro records
    exact ⟨chunkList_join 50 records, chunkList_length_le 50 (by decide) records⟩
  · rw [hrun]
    decide
  · rw [hrun]
    decide
  · rw [hrun]
    decide
  · rw [hrun]
    decide

/-! ## get_recent_changes (src/lib/database/supabase_client.py, lines 505-527)

`datetime.replace` raises `ValueError` when a field is out of range; the two
`replace` calls computing the cutoff sit before the `try:` block, so such an
error propagates to the caller before any query is issued.  The Supabase
query itself is an external collaborator, supplied as `runQuery`; the second
component of the result counts the queries actually issued. -/

inductive PyErr where
  | valueError
deriving DecidableEq

structure PyDateTime where
  year : Int
  month : Int
  day : Int
  hour : Int
  minute : Int
  second : Int
  microsecond : Int
deriving DecidableEq

/-- `dt.replace(hour=h, minute=m, second=s, microsecond=u)`. -/
def datetime_replace_hmsu (d : PyDateTime) (h m s u : Int) :
    Except PyErr PyDateTime :=
  if 0 ≤ h ∧ h < 24 then
    if 0 ≤ m ∧ m < 60 then
      if 0 ≤ s ∧ s < 60 then
        if 0 ≤ u ∧ u < 1000000 then
          .ok { d with hour := h, minute := m, second := s, microsecond := u }
        else .error .valueError
      else .error .valueError
    else .error .valueError
  else .error .valueError

/-- `dt.replace(hour=h)`. -/
def datetime_replace_hour (d : PyDateTime) (h : Int) : Except PyErr PyDateTime :=
  if 0 ≤ h ∧ h < 24 then .ok { d with hour := h } else .error .valueError

/-- `get_recent_changes(table, hours, limit)`: zero the time-of-day fields,
then shift the cutoff back by `hours` via `replace(hour=cutoff.hour - hours)`,
then query `{table}_changes`. -/
def get_recent_changes (runQuery : String → PyDateTime → Nat → List ChangeRow)
    (now : PyDateTime) (table : String) (hours : Int) (limit : Nat) :
    Except PyErr (List ChangeRow) × Nat :=
  match datetime_replace_hmsu now 0 0 0 0 with
  | .error e => (.error e, 0)
  | .ok cutoff1 =>
    match datetime_replace_hour cutoff1 (cutoff1.hour - hours) with
    | .error e => (.error e, 0)
    | .ok cutoff2 => (.ok (runQuery (table ++ "_changes") cutoff2 limit), 1)

/-- C10: for every table and every `hours ≥ 1` (the default is 24),
`get_recent_changes` raises `ValueError` before issuing any query: the first
`replace` zeroes the hour, so the second computes `replace(hour=0 - hours)`,
a negative hour, and both calls sit outside the exception handler. -/
theorem get_recent_changes_value_error
    (runQuery : String → PyDateTime → Nat → List ChangeRow) (now : PyDateTime)
    (table : String) (hours : Int) (limit : Nat) (h : 1 ≤ hours) :
    get_recent_changes runQuery now table hours limit =
      (.error .valueError, 0) := by
  have h1 : datetime_replace_hmsu now 0 0 0 0 =
      .ok { now with hour := 0, minute := 0, second := 0, microsecond := 0 } := by
    simp [datetime_replace_hmsu]
  rw [get_recent_changes, h1]
  have h2 : datetime_replace_hour
      { now with hour := 0, minute := 0, second := 0, microsecond := 0 }
      (-hours) = .error .valueError := by
    simp only [datetime_replace_hour]
    rw [if_neg (by omega)]
  simp [h2]

theorem get_recent_changes_value_error_witness :
    get_recent_changes (fun _ _ _ => []) ⟨2024, 10, 12, 15, 30, 0, 0⟩
      "company" 24 100 = (.error .valueError, 0) :=
  get_recent_changes_value_error (fun _ _ _ => []) ⟨2024, 10, 12, 15, 30, 0, 0⟩
    "company" 24 100 (by norm_num)

/-! ## DataCleaner (src/lib/cleaning/data_cleaner.py)

`calculate_content_hash(data)` is
`hashlib.md5(str(sorted(data.items())).encode()).hexdigest()`.  The md5
hexdigest is an external primitive and is passed in as `digest`; the string
it is applied to — `str(sorted(data.items()))` — is modelled exactly:
key-sorted items rendered as a Python list of tuples.

The field normalizers (`standardize_company_name`, `standardize_sector`,
`parse_funding_amount`, `clean_text`, `normalize_url`, ...) are pure
per-field functions whose outputs do not depend on the scrape time; they are
abstracted as the `CleanerFns` record so the hashing claims hold for every
choice of them, and instantiated concretely (`plainCleanerFns`) for the
evaluated counterscenario. -/

/-- A single-quote character, Python's string-repr delimiter. -/
def sq : String := String.singleton (Char.ofNat 39)

/-- Python `repr` of a stored value (strings single-quoted, `None`,
`True`/`False`; rationals stand in for floats). -/
def pyReprValue : Value → String
  | .vStr s => sq ++ s ++ sq
  | .vNum q => toString q.num ++ "/" ++ toString q.den
  | .vBool b => if b then "True" else "False"
  | .vNull => "None"

/-- Python `repr` of one `(key, value)` item tuple. -/
def pyReprPair (p : String × Value) : String :=
  "(" ++ sq ++ p.1 ++ sq ++ ", " ++ pyReprValue p.2 ++ ")"

def strLtChars : List Char → List Char → Bool
  | [], [] => false
  | [], _ :: _ => true
  | _ :: _, [] => false
  | a :: as, b :: bs =>
    if a.toNat < b.toNat then true
    else if b.toNat < a.toNat then false
    else strLtChars as bs

/-- Lexicographic string order used by `sorted` on the distinct keys. -/
def str_lt (a b : String) : Bool := strLtChars a.data b.data

def insertPairSorted (p : String × Value) : List (String × Value) → List (String × Value)
  | [] => [p]
  | q :: rest => if str_lt q.1 p.1 then q :: insertPairSorted p rest else p :: q :: rest

/-- `sorted(data.items())` (keys are distinct, so only key order matters). -/
def sortPairs : List (String × Value) → List (String × Value)
  | [] => []
  | p :: rest => insertPairSorted p (sortPairs rest)

/-- The exact string passed to `hashlib.md5(...)`:
`str(sorted(data.items()))`. -/
def calculate_content_hash_payload (d : Dict) : String :=
  "[" ++ String.intercalate ", " ((sortPairs d).map pyReprPair) ++ "]"

/-- `DataCleaner.calculate_content_hash`, with the md5 hexdigest supplied as
`digest`. -/
def calculate_content_hash (digest : String → String) (d : Dict) : String :=
  digest (calculate_content_hash_payload d)

/-- The per-field normalizer methods of `DataCleaner`, as abstract pure
functions (their outputs depend only on the raw field values). -/
structure CleanerFns where
  standardize_company_name : Value → String
  standardize_sector : Option Value → String
  parse_funding_amount : Value → Option ℚ × Option String
  standardize_funding_stage : Option Value → Value
  clean_text_max : Option Value → Nat → Value
  clean_text : Option Value → Value
  normalize_url : Option Value → Value
  extract_location_from_summary : Value → Value × Value
  extract_name_and_title : Value → Value × Value
  standardize_title : Value → String
  parse_name : Value → String × String
  validate_linkedin_url : Option Value → Value

def optNumToValue : Option ℚ → Value
  | none => .vNull
  | some q => .vNum q

def optStrToValue : Option String → Value
  | none => .vNull
  | some s => .vStr s

/-- `clean_portfolio_company` up to (and excluding) the `content_hash`
assignment: the dict whose serialization is hashed.  Note that
`scraped_at` (the scrape timestamp `t`) and `source_url` are inserted
*before* the hash is computed. -/
def clean_portfolio_company_pre (F : CleanerFns) (raw : Dict) (base_url : Value)
    (t : String) : Dict :=
  let d : Dict := []
  let d := dset d "name" (.vStr (F.standardize_company_name (dgetD raw "name" (.vStr ""))))
  let d := dset d "original_name" (dgetD raw "name" (.vStr ""))
  let d := dset d "sector"
    (.vStr (F.standardize_sector (pyOr (dget raw "sector") (dget raw "industry"))))
  let fundingText := pyOr (dget raw "funding") (dget raw "funding_description")
  let d :=
    if truthyO fundingText then
      let ac := F.parse_funding_amount (fundingText.getD .vNull)
      let d := dset d "funding_amount" (optNumToValue ac.1)
      let d := dset d "funding_currency" (optStrToValue ac.2)
      dset d "funding_description" (fundingText.getD .vNull)
    else d
  let d := dset d "funding_stage"
    (F.standardize_funding_stage (pyOr (dget raw "round_type") (dget raw "stage")))
  let d := dset d "description" (F.clean_text_max (dget raw "description") 500)
  let d := dset d "website" (F.normalize_url (pyOr (dget raw "website") (dget raw "url")))
  let d := dset d "logo_url" (F.normalize_url (pyOr (dget raw "logo") (dget raw "logo_url")))
  let loc0 := dget raw "location"
  let loc : Option Value :=
    if !truthyO loc0 && truthyO (dget d "description") then
      some (F.extract_location_from_summary ((dget d "description").getD .vNull)).1
    else loc0
  let d := dset d "location" (F.clean_text loc)
  let d := dset d "scraped_at" (.vStr t)
  dset d "source_url" (dgetD raw "source_url" base_url)

/-- `DataCleaner.clean_portfolio_company`. -/
def clean_portfolio_company (F : CleanerFns) (digest : String → String)
    (raw : Dict) (base_url : Value) (t : String) : Dict :=
  let d := clean_portfolio_company_pre F raw base_url t
  dset d "content_hash" (.vStr (calculate_content_hash digest d))

/-- `clean_team_member` up to (and excluding) the `content_hash` assignment;
`scraped_at` is again the last field inserted before hashing. -/
def clean_team_member_pre (F : CleanerFns) (raw : Dict) (t : String) : Dict :=
  let d : Dict := []
  let full_name := dgetD raw "name" (.vStr "")
  let d :=
    if truthy full_name then
      let nt := F.extract_name_and_title full_name
      let d := dset d "name" nt.1
      let title := if truthy nt.2 then nt.2 else dgetD raw "title" (.vStr "")
      let d := dset d "title" (.vStr (F.standardize_title title))
      if truthy nt.1 then
        let fl := F.parse_name nt.1
        dset (dset d "first_name" (.vStr fl.1)) "last_name" (.vStr fl.2)
      else d
    else d
  let d := dset d "photo_url" (F.normalize_url (pyOr (dget raw "photo_url") (dget raw "image_url")))
  let d := dset d "bio" (F.clean_text_max (pyOr (dget raw "bio") (dget raw "description")) 1000)
  let d := dset d "linkedin_url"
    (F.validate_linkedin_url (pyOr (dget raw "linkedin") (dget raw "linkedin_url")))
  let d := dset d "email" (F.clean_text (dget raw "email"))
  dset d "scraped_at" (.vStr t)

/-- `DataCleaner.clean_team_member`. -/
def clean_team_member (F : CleanerFns) (digest : String → String)
    (raw : Dict) (t : String) : Dict :=
  let d := clean_team_member_pre F raw t
  dset d "content_hash" (.vStr (calculate_content_hash digest d))

/-- A concrete, fully-evaluable instantiation of the normalizers, used to run
the cleaners on an explicit input. -/
def plainCleanerFns : CleanerFns where
  standardize_company_name := fun v => match v with | .vStr s => s | _ => ""
  standardize_sector := fun _ => "Uncategorized"
  parse_funding_amount := fun _ => (none, none)
  standardize_funding_stage := fun _ => .vNull
  clean_text_max := fun v _ => v.getD .vNull
  clean_text := fun v => v.getD .vNull
  normalize_url := fun _ => .vNull
  extract_location_from_summary := fun s => (.vNull, s)
  extract_name_and_title := fun v => (v, .vNull)
  standardize_title := fun v => match v with | .vStr s => s | _ => ""
  parse_name := fun v => (match v with | .vStr s => s | _ => "", "")
  validate_linkedin_url := fun _ => .vNull

def rawCompany : Dict := [("name", .vStr "Acme")]

def rawMember : Dict := [("name", .vStr "Jane Doe")]

set_option maxRecDepth 100000 in
/-- C1 evaluated against the code: for every choice of normalizers the dict
that `calculate_content_hash` serializes contains the volatile
`scraped_at` timestamp, the stored `content_hash` is exactly the digest of
that serialization, and on a concrete raw record the cleaner run at two
different scrape times feeds two different strings to md5 — the hash is not
computed over the significant fields only. -/
theorem clean_content_hash_covers_scraped_at :
    (∀ (F : CleanerFns) (raw : Dict) (base_url : Value) (t : String),
      dget (clean_portfolio_company_pre F raw base_url t) "scraped_at" =
        some (.vStr t)) ∧
    (∀ (F : CleanerFns) (raw : Dict) (t : String),
      dget (clean_team_member_pre F raw t) "scraped_at" = some (.vStr t)) ∧
    (∀ (F : CleanerFns) (digest : String → String) (raw : Dict) (base_url : Value)
        (t : String),
      dget (clean_portfolio_company F digest raw base_url t) "content_hash" =
        some (.vStr (digest (calculate_content_hash_payload
          (clean_portfolio_company_pre F raw base_url t))))) ∧
    (∀ (F : CleanerFns) (digest : String → String) (raw : Dict) (t : String),
      dget (clean_team_member F digest raw t) "content_hash" =
        some (.vStr (digest (calculate_content_hash_payload
          (clean_team_member_pre F raw t))))) ∧
    calculate_content_hash_payload (clean_portfolio_company_pre plainCleanerFns
        rawCompany .vNull "2024-01-01T00:00:00+00:00") ≠
      calculate_content_hash_payload (clean_portfolio_company_pre plainCleanerFns
        rawCompany .vNull "2024-01-02T00:00:00+00:00") ∧
    calculate_content_hash_payload (clean_team_member_pre plainCleanerFns
        rawMember "2024-01-01T00:00:00+00:00") ≠
      calculate_content_hash_payload (clean_team_member_pre plainCleanerFns
        rawMember "2024-01-02T00:00:00+00:00") := by
  refine ⟨?_, ?_, ?_, ?_, by decide, by decide⟩
  · intro F raw base_url t
    simp only [clean_portfolio_company_pre]
    rw [dget_dset_ne _ _ _ _ (by decide), dget_dset_self]
  · intro F raw t
    simp only [clean_team_member_pre]
    rw [dget_dset_self]
  · intro F digest raw base_url t
    simp only [clean_portfolio_company, calculate_content_hash]
    rw [dget_dset_self]
  · intro F digest raw t
    simp only [clean_team_member, calculate_content_hash]
    rw [dget_dset_self]

end VC
